import Mathlib

/-!
Verification of the vector-geometry measurement and layer-transformation
engine of `safe/gis/vector/tools.py` (InaSAFE).  The Python source is
shallowly embedded: Python floats are modelled by `PyFloat` (exact
rationals plus the IEEE special values NaN and the two infinities, which is what
the control flow of the code distinguishes), QGIS layers by explicit
record types, and the external collaborators (`QgsDistanceArea`
measurement, `convert_unit`, `definition`, `geometry_checker`) by
parameters or per-geometry oracle fields.
-/

namespace InaSafe

/-- Model of a Python (2.x) float as used by `SizeCalculator.measure`:
an exact finite value, `+inf`, `-inf`, or NaN.  Finite values are exact
rationals: the claims under study concern control flow (NaN skipping,
rounding, unit dispatch), not binary rounding error. -/
inductive PyFloat where
  | finite : ℚ → PyFloat
  | inf : PyFloat
  | ninf : PyFloat
  | nan : PyFloat
deriving DecidableEq, Repr

namespace PyFloat

/-- `math.isnan`: true exactly on NaN; in particular false on infinities. -/
def isnan : PyFloat → Bool
  | nan => true
  | _ => false

/-- True exactly on the two infinities: the non-finite values that
`math.isnan` does not catch. -/
def isSpecialInf : PyFloat → Bool
  | inf => true
  | ninf => true
  | _ => false

/-- Python float addition on the model (IEEE semantics for the special
values; exact addition on finite values). -/
def add : PyFloat → PyFloat → PyFloat
  | nan, _ => nan
  | _, nan => nan
  | inf, ninf => nan
  | ninf, inf => nan
  | inf, _ => inf
  | _, inf => inf
  | ninf, _ => ninf
  | _, ninf => ninf
  | finite a, finite b => finite (a + b)

/-- Python 2 `round` on a rational: half away from zero. -/
def pyround (q : ℚ) : ℤ :=
  if 0 ≤ q then (q + 1 / 2).floor else -(-q + 1 / 2).floor

/-- Python 2 `round(x)` returns a float: half-away-from-zero on finite
values, and the special values pass through. -/
def round2 : PyFloat → PyFloat
  | finite q => finite (pyround q)
  | inf => inf
  | ninf => ninf
  | nan => nan

end PyFloat

/-- Size units relevant to the calculator (`safe.definitions.units` plus
exposure-declared units). -/
inductive SizeUnit where
  | metres
  | square_metres
  | square_feet
  | hectares
deriving DecidableEq, Repr

/-- `QgsWKBTypes.GeometryType` (QGIS 2.x). -/
inductive GeometryType where
  | PointGeometry
  | LineGeometry
  | PolygonGeometry
  | UnknownGeometry
  | NullGeometry
deriving DecidableEq, Repr

/-- A single-part geometry as seen by `SizeCalculator.measure`, carrying
the results of the external ellipsoidal measurement routines
(`QgsDistanceArea.measureLength` / `measureArea`) as oracle fields, plus
the diagnostic data the code logs. -/
structure SinglePart where
  rawLength : PyFloat
  rawArea : PyFloat
  geosValid : Bool
  wkt : String
deriving DecidableEq, Repr

/-- A `QgsGeometry` for the purposes of `measure`: single-part, or
multi-part with its `asGeometryCollection` decomposition. -/
inductive Geometry where
  | single : SinglePart → Geometry
  | multi : List SinglePart → Geometry
deriving DecidableEq, Repr

/-- `QgsGeometry.isMultipart`. -/
def Geometry.isMultipart : Geometry → Bool
  | .single _ => false
  | .multi _ => true

/-- State of `SizeCalculator` fixed by `__init__`: geometry type, the
default unit it implies, and the optional output unit resolved from the
exposure definition. -/
structure SizeCalculator where
  geometry_type : GeometryType
  default_unit : SizeUnit
  output_unit : Option SizeUnit
deriving DecidableEq, Repr

namespace SizeCalculator

/-- `SizeCalculator.__init__`: the default unit is metres exactly when
`geometry_type == QgsWKBTypes.LineGeometry`, square metres otherwise;
`output_unit` is `definition(exposure_key)['size_unit']` when an exposure
key is given (the `definition` lookup is the external collaborator
`sizeUnitOf`). -/
def init (geometry_type : GeometryType) (exposure_key : Option String)
    (sizeUnitOf : String → SizeUnit) : SizeCalculator :=
  { geometry_type := geometry_type
    default_unit :=
      if geometry_type = GeometryType.LineGeometry then SizeUnit.metres
      else SizeUnit.square_metres
    output_unit := exposure_key.map sizeUnitOf }

/-- The raw ellipsoidal measurement the code takes for one single part:
`measureLength` when the calculator's geometry type is `LineGeometry`,
`measureArea` otherwise. -/
def rawMeasure (c : SizeCalculator) (g : SinglePart) : PyFloat :=
  if c.geometry_type = GeometryType.LineGeometry then g.rawLength
  else g.rawArea

/-- The accumulation phase of `measure`: `feature_size` before rounding.
For a multipart geometry, fold over the parts adding every raw
measurement that is not NaN; for a single part, the raw measurement if it
is not NaN, else the initial 0. -/
def featureSize (c : SizeCalculator) (g : Geometry) : PyFloat :=
  match g with
  | .multi parts =>
      parts.foldl
        (fun acc single =>
          let geometry_size := c.rawMeasure single
          if ¬ geometry_size.isnan then acc.add geometry_size else acc)
        (PyFloat.finite 0)
  | .single geometry =>
      let geometry_size := c.rawMeasure geometry
      if ¬ geometry_size.isnan then geometry_size else PyFloat.finite 0

/-- The rounded pre-conversion size: `feature_size = round(feature_size)`. -/
def measureRounded (c : SizeCalculator) (g : Geometry) : PyFloat :=
  (c.featureSize g).round2

/-- `SizeCalculator.measure`.  `convert` is the external
`convert_unit(value, from_unit, to_unit)` collaborator. -/
def measure (c : SizeCalculator)
    (convert : PyFloat → SizeUnit → SizeUnit → PyFloat)
    (g : Geometry) : PyFloat :=
  let feature_size := c.measureRounded g
  match c.output_unit with
  | some u =>
      if u ≠ c.default_unit then convert feature_size c.default_unit u
      else feature_size
  | none => feature_size

end SizeCalculator

/-- Sum of the finite raw measurements of a list of parts, a NaN raw
measurement contributing zero (the claim's description of the
accumulation). -/
def rawSumSkipNan (c : SizeCalculator) (parts : List SinglePart) : ℚ :=
  parts.foldl
    (fun acc p =>
      match c.rawMeasure p with
      | PyFloat.finite q => acc + q
      | _ => acc)
    0

/-- A field of a layer schema (`QgsField`): name, type code, length,
precision. -/
structure QgsField where
  name : String
  ftype : ℕ
  flength : ℤ
  fprecision : ℤ
deriving DecidableEq, Repr

/-- An attribute value. -/
inductive Attr where
  | null : Attr
  | int : ℤ → Attr
  | str : String → Attr
deriving DecidableEq, Repr

/-- A geometry as carried by a feature in the layer-copy operations:
only validity and identity matter there, the shape itself is opaque. -/
structure GeomV where
  gid : ℕ
  geosValid : Bool
deriving DecidableEq, Repr

/-- A feature (`QgsFeature`): id, optional geometry, attribute row. -/
structure Feature where
  fid : ℤ
  geometry : Option GeomV
  attributes : List Attr
deriving DecidableEq, Repr

/-- A vector layer (`QgsVectorLayer`): ordered field schema, features,
the `layer_purpose` keyword, the optional `use_selected_features_only`
attribute (`none` models the attribute being absent, which the code turns
into `False` through `except AttributeError`), and the current selection. -/
structure VectorLayer where
  name : String
  crs : Option String
  fields : List QgsField
  features : List Feature
  layer_purpose : Option String
  use_selected_features_only : Option Bool
  selectedIds : List ℤ
deriving DecidableEq, Repr

namespace VectorLayer

/-- `QgsVectorLayer.fieldNameIndex(name)`: index of the first field with
that name, `-1` if none. -/
def fieldNameIndex (l : VectorLayer) (n : String) : ℤ :=
  match l.fields.findIdx? (fun f => f.name = n) with
  | some i => (i : ℤ)
  | none => -1

/-- `selectedFeatureCount()`. -/
def selectedFeatureCount (l : VectorLayer) : ℕ := l.selectedIds.length

end VectorLayer

/-- `QGis` geometry-type constants (QGIS 2.x); the `geometry` argument of
`create_memory_layer` is one of these Python integers. -/
def QGisPoint : ℤ := 0
def QGisLine : ℤ := 1
def QGisPolygon : ℤ := 2
def QGisUnknownGeometry : ℤ := 3
def QGisNoGeometry : ℤ := 4

/-- `create_memory_layer`: dispatch on the geometry constant, build the
memory-provider uri, set the CRS from the authority id when given, append
the fields when given.  The nondeterministic `uuid4()` is a parameter.
An unsupported geometry raises `MemoryLayerCreationError` with a message
naming the offending value, modelled as `Except.error`. -/
def create_memory_layer (layer_name : String) (geometry : ℤ)
    (coordinate_reference_system : Option String)
    (fields : Option (List QgsField)) (uuid : String) :
    Except String VectorLayer :=
  if geometry = QGisPoint then
    Except.ok (mkLayer "MultiPoint" layer_name coordinate_reference_system
      fields uuid)
  else if geometry = QGisLine then
    Except.ok (mkLayer "MultiLineString" layer_name
      coordinate_reference_system fields uuid)
  else if geometry = QGisPolygon then
    Except.ok (mkLayer "MultiPolygon" layer_name coordinate_reference_system
      fields uuid)
  else if geometry = QGisNoGeometry then
    Except.ok (mkLayer "none" layer_name coordinate_reference_system fields
      uuid)
  else
    Except.error
      ("Layer is whether Point nor Line nor Polygon, I got " ++
        toString geometry)
where
  /-- Building the `QgsVectorLayer(uri, layer_name, memory)` with the
  keywords map initialised and the fields appended. -/
  mkLayer (_type_string layer_name : String) (crs : Option String)
      (fields : Option (List QgsField)) (_uuid : String) : VectorLayer :=
    { name := layer_name
      crs := crs.map (fun c => c.toLower)
      fields := fields.getD []
      features := []
      layer_purpose := none
      use_selected_features_only := none
      selectedIds := [] }

/-- The subset of source features that `copy_layer`'s feature request
iterates: when the source's `layer_purpose` keyword is `aggregation`, its
`use_selected_features_only` attribute exists and is true (an absent
attribute reads as false through `except AttributeError`) and at least
one feature is selected, only the features with selected ids; in every
other case all features. -/
def iterFeatures (source : VectorLayer) : List Feature :=
  if source.layer_purpose = some "aggregation" ∧
      source.use_selected_features_only.getD false = true ∧
      0 < source.selectedFeatureCount then
    source.features.filter (fun f => source.selectedIds.contains f.fid)
  else
    source.features

/-- The body of `copy_layer`'s loop for one source feature: take its
geometry, pass it through `geometry_checker` when the source is an
aggregation layer (the invalid-after-cleaning case only logs), then build
the output feature with that geometry and the verbatim attribute row.
The reused `out_feature = QgsFeature()` keeps its default id. -/
def outFeature (geometry_checker : Option GeomV → Option GeomV)
    (aggregation_layer : Bool) (feature : Feature) : Feature :=
  let geom := feature.geometry
  let geom := if aggregation_layer then geometry_checker geom else geom
  { fid := 0, geometry := geom, attributes := feature.attributes }

/-- `copy_layer(source, target)`: inside one edit session on the target,
append to it the processed copy of every iterated source feature.
`geometry_checker` is the external repair collaborator from
`safe.gis.vector.clean_geometry`. -/
def copy_layer (geometry_checker : Option GeomV → Option GeomV)
    (source target : VectorLayer) : VectorLayer :=
  let aggregation_layer := source.layer_purpose = some "aggregation"
  { target with
      features := target.features ++
        (iterFeatures source).map
          (outFeature geometry_checker (decide aggregation_layer)) }

/-- One iteration of the `copy_fields` loop for an entry whose old name
resolved to `index`: clone the field at `index` under `new_name`, append
it with `addAttribute` (the schema grows and every row gains a null
slot), look up the new field's index by name, then for every feature copy
the value at `index` into the new index with `changeAttributeValue`
(which is a no-op on a negative index). -/
def copyOneField (l : VectorLayer) (index : ℕ) (new_name : String) :
    VectorLayer :=
  let source_field := l.fields.getD index ⟨"", 0, 0, 0⟩
  let new_field := { source_field with name := new_name }
  let l1 : VectorLayer :=
    { l with
        fields := l.fields ++ [new_field],
        features := l.features.map
          (fun f => { f with attributes := f.attributes ++ [Attr.null] }) }
  let new_index := l1.fieldNameIndex new_name
  { l1 with
      features := l1.features.map (fun f =>
        if 0 ≤ new_index then
          { f with
              attributes := f.attributes.set new_index.toNat
                (f.attributes.getD index Attr.null) }
        else f) }

/-- One pass of the `copy_fields` loop over one entry of the rename
mapping: when the entry's old name exists, open an edit session
(`startEditing`), perform the clone and the per-feature value copy, and
commit; when it does not, nothing happens.  The state is the layer
together with the number of edit sessions opened so far.  `commitOk k`
says whether the k-th opened session's `commitChanges` succeeds; a
session that fails before commit leaves the layer in its pre-session
state. -/
def copyFieldsStep (commitOk : ℕ → Bool) (st : VectorLayer × ℕ)
    (entry : String × String) : VectorLayer × ℕ :=
  let index := st.1.fieldNameIndex entry.1
  if index ≠ -1 then
    let l1 := copyOneField st.1 index.toNat entry.2
    ((if commitOk st.2 then l1 else st.1), st.2 + 1)
  else st

/-- `copy_fields` proper: fold the per-entry loop body over the rename
mapping, starting from the untouched layer and zero sessions. -/
def copy_fields (commitOk : ℕ → Bool) (layer : VectorLayer)
    (fields_to_copy : List (String × String)) : VectorLayer × ℕ :=
  fields_to_copy.foldl (copyFieldsStep commitOk) (layer, 0)

/-- The `index_to_remove` list of `remove_fields`: for each name in
order, its `fieldNameIndex` when that is not `-1` (pre-deletion index
values). -/
def indexesToRemove (layer : VectorLayer) (fields_to_remove : List String) :
    List ℤ :=
  fields_to_remove.foldl
    (fun acc field =>
      let index := layer.fieldNameIndex field
      if index ≠ -1 then acc ++ [index] else acc)
    []

/-- Worker for `removeColumns`: walk the list with its position,
dropping the entries whose position is listed. -/
def removeColumnsGo {α : Type} (idxs : List ℤ) : ℤ → List α → List α
  | _, [] => []
  | n, x :: rest =>
    if idxs.contains n then removeColumnsGo idxs (n + 1) rest
    else x :: removeColumnsGo idxs (n + 1) rest

/-- `dataProvider().deleteAttributes(idxs)` on one list: one batch
removal of the entries at the given pre-deletion positions. -/
def removeColumns {α : Type} (xs : List α) (idxs : List ℤ) : List α :=
  removeColumnsGo idxs 0 xs

/-- `remove_fields(layer, fields_to_remove)`: resolve each name to its
index, ignoring the absent ones, then delete all matched columns in a
single batch data-provider call (schema and every row); no edit session
is opened. -/
def remove_fields (layer : VectorLayer) (fields_to_remove : List String) :
    VectorLayer :=
  let index_to_remove := indexesToRemove layer fields_to_remove
  { layer with
      fields := removeColumns layer.fields index_to_remove,
      features := layer.features.map (fun f =>
        { f with attributes := removeColumns f.attributes index_to_remove }) }

/-- A trivial stand-in for the external `convert_unit` collaborator, used
to instantiate theorems at concrete inputs. -/
def convStub : PyFloat → SizeUnit → SizeUnit → PyFloat := fun v _ _ => v

/-- A polygon-type size calculator with no exposure key, hence no output
unit: results stay in the default unit (square metres). -/
def calcPolyDefault : SizeCalculator :=
  SizeCalculator.init GeometryType.PolygonGeometry none
    (fun _ => SizeUnit.square_metres)

/-- Three single-part shapes with raw area measurements 10.4, NaN and
5.1: the multi-part aggregation example of the specification. -/
def partsSpec : List SinglePart :=
  [⟨PyFloat.nan, PyFloat.finite (52 / 5), true, "POLYGON A"⟩,
   ⟨PyFloat.nan, PyFloat.nan, false, "POLYGON B"⟩,
   ⟨PyFloat.nan, PyFloat.finite (51 / 10), true, "POLYGON C"⟩]

/-- A single part whose raw area measurement is positive infinity. -/
def spInf : SinglePart := ⟨PyFloat.nan, PyFloat.inf, true, "POLYGON D"⟩

/-- A polygon-type size calculator whose exposure definition declares
square feet as output unit. -/
def calcFeet : SizeCalculator :=
  SizeCalculator.init GeometryType.PolygonGeometry (some "road")
    (fun _ => SizeUnit.square_feet)

/-- A single part whose raw area measurement 99.75 rounds to 100. -/
def spArea100 : SinglePart :=
  ⟨PyFloat.nan, PyFloat.finite (399 / 4), true, "POLYGON E"⟩

/-- An aggregation-purpose source layer with three features of which the
first and third are selected, and `use_selected_features_only` set. -/
def aggSource : VectorLayer :=
  ⟨"agg", none, [],
    [⟨1, none, [Attr.int 1]⟩, ⟨2, none, [Attr.int 2]⟩, ⟨3, none, [Attr.int 3]⟩],
    some "aggregation", some true, [1, 3]⟩

/-- An empty target layer. -/
def emptyTarget : VectorLayer := ⟨"t", none, [], [], none, none, []⟩

/-- A layer with two fields A and C and one feature. -/
def layerAC : VectorLayer :=
  ⟨"l", none, [⟨"A", 2, 10, 0⟩, ⟨"C", 10, 20, 0⟩],
    [⟨1, none, [Attr.int 7, Attr.str "x"]⟩], none, none, []⟩

/-- Batteries' computable `Rat.floor` agrees with the mathematical floor. -/
lemma rat_floor_eq_intFloor (q : ℚ) : q.floor = ⌊q⌋ := by
  rw [Rat.floor_def', ← Rat.floor_def]

/-- When no output unit is configured, or it equals the default unit,
`measure` returns the rounded value unconverted. -/
lemma measure_no_convert (c : SizeCalculator)
    (conv : PyFloat → SizeUnit → SizeUnit → PyFloat) (g : Geometry)
    (h : c.output_unit = none ∨ c.output_unit = some c.default_unit) :
    c.measure conv g = c.measureRounded g := by
  rcases h with h | h <;> simp [SizeCalculator.measure, h]

/-- On a multi-part geometry all of whose raw part measurements are
finite or NaN, the accumulated `feature_size` is the exact sum of the
finite raw measurements, a NaN part contributing zero. -/
lemma featureSize_multi_eq (c : SizeCalculator) (parts : List SinglePart)
    (h : ∀ p ∈ parts, (c.rawMeasure p).isSpecialInf = false) :
    c.featureSize (Geometry.multi parts) =
      PyFloat.finite (rawSumSkipNan c parts) := by
  show parts.foldl _ (PyFloat.finite 0) = PyFloat.finite (parts.foldl _ 0)
  generalize (0 : ℚ) = a
  induction parts generalizing a with
  | nil => rfl
  | cons p ps ih =>
      have hp := h p (List.mem_cons_self p ps)
      have hps : ∀ q ∈ ps, (c.rawMeasure q).isSpecialInf = false :=
        fun q hq => h q (List.mem_cons_of_mem p hq)
      rw [List.foldl_cons, List.foldl_cons]
      cases hm : c.rawMeasure p with
      | finite q =>
          simp only [hm, PyFloat.isnan, PyFloat.add]
          exact ih hps (a + q)
      | nan =>
          simp only [hm, PyFloat.isnan]
          simpa using ih hps a
      | inf => rw [hm] at hp; simp [PyFloat.isSpecialInf] at hp
      | ninf => rw [hm] at hp; simp [PyFloat.isSpecialInf] at hp

/-- C1: for every multi-part geometry whose raw part measurements are
finite or NaN, `measure` (with no unit conversion applicable) returns the
half-away-from-zero rounding of the sum of the raw single-part
measurements, a NaN part contributing zero; in particular the
specification's example {10.4, NaN, 5.1} yields 16 in the default
unit. -/
theorem measure_multipart_sum :
    (∀ (c : SizeCalculator) (conv : PyFloat → SizeUnit → SizeUnit → PyFloat)
        (parts : List SinglePart),
      c.output_unit = none ∨ c.output_unit = some c.default_unit →
      (∀ p ∈ parts, (c.rawMeasure p).isSpecialInf = false) →
      c.measure conv (Geometry.multi parts) =
        PyFloat.finite (PyFloat.pyround (rawSumSkipNan c parts)))
    ∧ calcPolyDefault.measure convStub (Geometry.multi partsSpec) =
        PyFloat.finite 16 := by
  have main : ∀ (c : SizeCalculator)
      (conv : PyFloat → SizeUnit → SizeUnit → PyFloat)
      (parts : List SinglePart),
      c.output_unit = none ∨ c.output_unit = some c.default_unit →
      (∀ p ∈ parts, (c.rawMeasure p).isSpecialInf = false) →
      c.measure conv (Geometry.multi parts) =
        PyFloat.finite (PyFloat.pyround (rawSumSkipNan c parts)) := by
    intro c conv parts h1 h2
    rw [measure_no_convert c conv _ h1, SizeCalculator.measureRounded,
      featureSize_multi_eq c parts h2]
    rfl
  refine ⟨main, ?_⟩
  rw [main calcPolyDefault convStub partsSpec (Or.inl rfl) (by decide)]
  have hsum : rawSumSkipNan calcPolyDefault partsSpec = 31 / 2 := by
    simp [rawSumSkipNan, SizeCalculator.rawMeasure, partsSpec, calcPolyDefault,
      SizeCalculator.init]
    norm_num
  have hround : PyFloat.pyround (31 / 2) = 16 := by
    rw [PyFloat.pyround]
    norm_num [rat_floor_eq_intFloor]
  rw [hsum, hround]
  norm_num

/-- Witness for C1 at the specification's concrete example. -/
theorem measure_multipart_sum_witness :
    ((calcPolyDefault.output_unit = none ∨
        calcPolyDefault.output_unit = some calcPolyDefault.default_unit) ∧
      (∀ p ∈ partsSpec, (calcPolyDefault.rawMeasure p).isSpecialInf = false)) ∧
    calcPolyDefault.measure convStub (Geometry.multi partsSpec) =
      PyFloat.finite (PyFloat.pyround (rawSumSkipNan calcPolyDefault partsSpec)) :=
  ⟨⟨Or.inl rfl, by decide⟩,
    measure_multipart_sum.1 calcPolyDefault convStub partsSpec (Or.inl rfl)
      (by decide)⟩

/-- C2 counterexample: a single-part geometry whose raw measurement is
positive infinity is NOT discarded — `isnan` only catches NaN — so the
measured size is infinite, not zero as the claim states. -/
theorem measure_infinity_kept_cex :
    calcPolyDefault.measure convStub (Geometry.single spInf) = PyFloat.inf ∧
      PyFloat.inf ≠ PyFloat.finite 0 :=
  ⟨rfl, by decide⟩

/-- C2 as amended: any raw measurement that is NaN is discarded and
contributes zero: on a multi-part geometry removing a NaN part does not
change the accumulated size, and on a single-part geometry a NaN raw
measurement leaves the pre-rounding size at zero. -/
theorem measure_nan_discarded :
    ∀ (c : SizeCalculator) (pre post : List SinglePart) (p q : SinglePart),
      ((c.rawMeasure p).isnan = true →
        c.featureSize (Geometry.multi (pre ++ p :: post)) =
          c.featureSize (Geometry.multi (pre ++ post)))
      ∧ ((c.rawMeasure q).isnan = true →
        c.featureSize (Geometry.single q) = PyFloat.finite 0) := by
  intro c pre post p q
  constructor
  · intro h
    show (pre ++ p :: post).foldl _ _ = (pre ++ post).foldl _ _
    rw [List.foldl_append, List.foldl_append, List.foldl_cons]
    congr 1
    simp [h]
  · intro h
    simp [SizeCalculator.featureSize, h]

/-- Witness for the amended C2 at a concrete NaN-measured part. -/
theorem measure_nan_discarded_witness :
    ((calcPolyDefault.rawMeasure ⟨PyFloat.nan, PyFloat.nan, false, "POLYGON B"⟩).isnan
        = true) ∧
    calcPolyDefault.featureSize
        (Geometry.single ⟨PyFloat.nan, PyFloat.nan, false, "POLYGON B"⟩) =
      PyFloat.finite 0 :=
  ⟨by decide,
    (measure_nan_discarded calcPolyDefault [] []
        ⟨PyFloat.nan, PyFloat.nan, false, "POLYGON B"⟩
        ⟨PyFloat.nan, PyFloat.nan, false, "POLYGON B"⟩).2 (by decide)⟩

/-- C8: when an output unit is configured and differs from the default
unit, `measure` returns `convert(rounded, default, output)`; when no
output unit is configured or it equals the default, the rounded value is
returned unconverted.  The last conjunct is the specification's square
feet example: a polygon whose ellipsoidal area rounds to 100 square
metres measures as `convert(100, square_metres, square_feet)`. -/
theorem measure_unit_conversion :
    (∀ (c : SizeCalculator) (conv : PyFloat → SizeUnit → SizeUnit → PyFloat)
        (g : Geometry) (u : SizeUnit),
      (c.output_unit = some u → u ≠ c.default_unit →
        c.measure conv g = conv (c.measureRounded g) c.default_unit u)
      ∧ (c.output_unit = none ∨ c.output_unit = some c.default_unit →
        c.measure conv g = c.measureRounded g))
    ∧ ∀ conv2 : PyFloat → SizeUnit → SizeUnit → PyFloat,
        calcFeet.measure conv2 (Geometry.single spArea100) =
          conv2 (PyFloat.finite 100) SizeUnit.square_metres SizeUnit.square_feet := by
  constructor
  · intro c conv g u
    constructor
    · intro hu hne
      simp [SizeCalculator.measure, hu, hne]
    · exact measure_no_convert c conv g
  · intro conv2
    have h1 : calcFeet.measure conv2 (Geometry.single spArea100) =
        conv2 (calcFeet.measureRounded (Geometry.single spArea100))
          SizeUnit.square_metres SizeUnit.square_feet := by
      simp [SizeCalculator.measure, calcFeet, SizeCalculator.init]
    rw [h1]
    have h2 : calcFeet.measureRounded (Geometry.single spArea100) =
        PyFloat.finite 100 := by
      show PyFloat.round2 _ = _
      have hfs : calcFeet.featureSize (Geometry.single spArea100) =
          PyFloat.finite (399 / 4) := rfl
      rw [hfs, PyFloat.round2]
      have : PyFloat.pyround (399 / 4) = 100 := by
        rw [PyFloat.pyround]
        norm_num [rat_floor_eq_intFloor]
      rw [this]
      norm_num
    rw [h2]

/-- Witness for C8 at the square-feet calculator. -/
theorem measure_unit_conversion_witness :
    (calcFeet.output_unit = some SizeUnit.square_feet ∧
      SizeUnit.square_feet ≠ calcFeet.default_unit) ∧
    calcFeet.measure convStub (Geometry.single spArea100) =
      convStub (calcFeet.measureRounded (Geometry.single spArea100))
        calcFeet.default_unit SizeUnit.square_feet :=
  ⟨⟨rfl, by decide⟩,
    (measure_unit_conversion.1 calcFeet convStub (Geometry.single spArea100)
        SizeUnit.square_feet).1 rfl (by decide)⟩

/-- C10: the length-versus-area dichotomy of the size calculator is
decided solely by whether the geometry type equals `LineGeometry`: every
other geometry type — points included — gets square metres as default
unit and area measurement, and the line type gets metres and length. -/
theorem size_calculator_line_dichotomy :
    ∀ (gt : GeometryType) (ek : Option String) (lookup : String → SizeUnit),
      (gt ≠ GeometryType.LineGeometry →
        (SizeCalculator.init gt ek lookup).default_unit = SizeUnit.square_metres ∧
        ∀ sp : SinglePart,
          (SizeCalculator.init gt ek lookup).rawMeasure sp = sp.rawArea)
      ∧ (gt = GeometryType.LineGeometry →
        (SizeCalculator.init gt ek lookup).default_unit = SizeUnit.metres ∧
        ∀ sp : SinglePart,
          (SizeCalculator.init gt ek lookup).rawMeasure sp = sp.rawLength) := by
  intro gt ek lookup
  constructor
  · intro h
    constructor <;> simp [SizeCalculator.init, SizeCalculator.rawMeasure, h]
  · intro h
    subst h
    constructor <;> simp [SizeCalculator.init, SizeCalculator.rawMeasure]

/-- Witness for C10 at the point geometry type. -/
theorem size_calculator_line_dichotomy_witness :
    GeometryType.PointGeometry ≠ GeometryType.LineGeometry ∧
    (SizeCalculator.init GeometryType.PointGeometry none
        (fun _ => SizeUnit.square_metres)).default_unit = SizeUnit.square_metres ∧
    (SizeCalculator.init GeometryType.PointGeometry none
        (fun _ => SizeUnit.square_metres)).rawMeasure
        ⟨PyFloat.nan, PyFloat.finite 3, true, "POINT F"⟩ = PyFloat.finite 3 :=
  ⟨by decide,
    ((size_calculator_line_dichotomy GeometryType.PointGeometry none
        (fun _ => SizeUnit.square_metres)).1 (by decide)).1,
    by
      rw [((size_calculator_line_dichotomy GeometryType.PointGeometry none
        (fun _ => SizeUnit.square_metres)).1 (by decide)).2]⟩

/-- C5: `create_memory_layer` succeeds exactly on the four supported
geometry constants {Point, Line, Polygon, NoGeometry} and otherwise
raises `MemoryLayerCreationError` with a message naming the offending
value. -/
theorem create_memory_layer_geometry_check :
    ∀ (nm : String) (g : ℤ) (crs : Option String)
      (fs : Option (List QgsField)) (uuid : String),
      (g ∈ ([QGisPoint, QGisLine, QGisPolygon, QGisNoGeometry] : List ℤ) →
        ∃ l, create_memory_layer nm g crs fs uuid = Except.ok l)
      ∧ (g ∉ ([QGisPoint, QGisLine, QGisPolygon, QGisNoGeometry] : List ℤ) →
        create_memory_layer nm g crs fs uuid =
          Except.error
            ("Layer is whether Point nor Line nor Polygon, I got " ++
              toString g)) := by
  intro nm g crs fs uuid
  constructor
  · intro hmem
    simp only [List.mem_cons, List.not_mem_nil, or_false] at hmem
    unfold create_memory_layer
    rcases hmem with h | h | h | h
    all_goals simp [h, QGisPoint, QGisLine, QGisPolygon, QGisNoGeometry]
  · intro hmem
    simp only [List.mem_cons, List.mem_singleton] at hmem
    push_neg at hmem
    obtain ⟨h0, h1, h2, h4⟩ := hmem
    unfold create_memory_layer
    simp [h0, h1, h2, h4]

/-- Witness for C5: the polygon constant succeeds; the unsupported
constant 7 fails with a message naming 7. -/
theorem create_memory_layer_geometry_check_witness :
    ((QGisPolygon ∈ ([QGisPoint, QGisLine, QGisPolygon, QGisNoGeometry] : List ℤ)) ∧
      ∃ l, create_memory_layer "layer" QGisPolygon none none "u" = Except.ok l) ∧
    ((7 : ℤ) ∉ ([QGisPoint, QGisLine, QGisPolygon, QGisNoGeometry] : List ℤ)) ∧
    create_memory_layer "layer" 7 none none "u" =
      Except.error "Layer is whether Point nor Line nor Polygon, I got 7" :=
  ⟨⟨by decide,
    (create_memory_layer_geometry_check "layer" QGisPolygon none none "u").1
      (by decide)⟩,
   by decide,
   (create_memory_layer_geometry_check "layer" 7 none none "u").2 (by decide)⟩

/-- C4: on an aggregation-purpose source, `copy_layer` copies exactly the
selected subset when the use-selected-only flag is true and at least one
feature is selected, and all features otherwise (flag false, flag absent,
or empty selection). -/
theorem copy_layer_selection :
    ∀ (checker : Option GeomV → Option GeomV) (source target : VectorLayer),
      source.layer_purpose = some "aggregation" →
      ((source.use_selected_features_only = some true ∧
          0 < source.selectedFeatureCount →
        (copy_layer checker source target).features =
          target.features ++
            (source.features.filter
              (fun f => source.selectedIds.contains f.fid)).map
              (outFeature checker true))
       ∧ (source.use_selected_features_only ≠ some true ∨
            source.selectedFeatureCount = 0 →
        (copy_layer checker source target).features =
          target.features ++ source.features.map (outFeature checker true))) := by
  intro checker source target hagg
  constructor
  · rintro ⟨hflag, hsel⟩
    simp [copy_layer, iterFeatures, hagg, hflag, hsel]
  · intro h
    have hcond : ¬ (source.layer_purpose = some "aggregation" ∧
        source.use_selected_features_only.getD false = true ∧
        0 < source.selectedFeatureCount) := by
      rintro ⟨-, hflag, hsel⟩
      rcases h with h | h
      · cases hv : source.use_selected_features_only with
        | none => rw [hv] at hflag; simp at hflag
        | some b =>
            rw [hv] at hflag
            cases b
            · simp at hflag
            · exact h (by rw [hv])
      · omega
    have hcond2 : ¬ (source.use_selected_features_only.getD false = true ∧
        0 < source.selectedFeatureCount) := fun hc => hcond ⟨hagg, hc⟩
    simp [copy_layer, iterFeatures, hagg, hcond2]

/-- Witness for C4: the three-feature aggregation source with two
selected features copies exactly its selected subset. -/
theorem copy_layer_selection_witness :
    (aggSource.use_selected_features_only = some true ∧
      0 < aggSource.selectedFeatureCount) ∧
    (copy_layer id aggSource emptyTarget).features =
      emptyTarget.features ++
        (aggSource.features.filter
          (fun f => aggSource.selectedIds.contains f.fid)).map
          (outFeature id true) :=
  ⟨⟨rfl, by decide⟩,
    (copy_layer_selection id aggSource emptyTarget rfl).1 ⟨rfl, by decide⟩⟩

/-- C9: a source feature with no geometry that is iterated by
`copy_layer` reaches the target as a feature with null geometry and a
verbatim attribute row (the geometry checker maps null to null, as the
specification requires of the repair collaborator); the embedding is
total, so the copy completes without raising. -/
theorem copy_layer_null_geometry :
    ∀ (checker : Option GeomV → Option GeomV) (source target : VectorLayer)
      (f : Feature),
      checker none = none →
      f ∈ iterFeatures source →
      f.geometry = none →
      (⟨0, none, f.attributes⟩ : Feature) ∈
        (copy_layer checker source target).features := by
  intro checker source target f hchk hf hg
  have hout : outFeature checker
      (decide (source.layer_purpose = some "aggregation")) f =
      ⟨0, none, f.attributes⟩ := by
    cases hd : decide (source.layer_purpose = some "aggregation") <;>
      simp [outFeature, hg, hchk]
  rw [copy_layer]
  exact List.mem_append_right _
    (hout ▸ List.mem_map_of_mem _ hf)

/-- Witness for C9 at a selected null-geometry feature of the
aggregation source. -/
theorem copy_layer_null_geometry_witness :
    ((id : Option GeomV → Option GeomV) none = none ∧
      (⟨1, none, [Attr.int 1]⟩ : Feature) ∈ iterFeatures aggSource ∧
      (⟨1, none, [Attr.int 1]⟩ : Feature).geometry = none) ∧
    (⟨0, none, [Attr.int 1]⟩ : Feature) ∈
      (copy_layer id aggSource emptyTarget).features :=
  ⟨⟨rfl, by decide, rfl⟩,
    copy_layer_null_geometry id aggSource emptyTarget ⟨1, none, [Attr.int 1]⟩
      rfl (by decide) rfl⟩

/-- C3 counterexample: `copy_fields` on a layer with two matched rename
entries opens two edit sessions, not exactly one atomic session per
operation as the claim states. -/
theorem field_editor_sessions_cex :
    (copy_fields (fun _ => true) layerAC [("A", "B"), ("C", "D")]).2 = 2 ∧
      (2 : ℕ) ≠ 1 :=
  ⟨by decide, by decide⟩

/-- C3 as amended: `copy_fields` opens one edit session per rename entry
whose old name exists, each atomic on its own: if every session's commit
fails, the layer is left exactly in its pre-call state, and the number of
sessions opened equals the number of matched entries. -/
theorem field_editor_per_entry_sessions :
    (∀ (l : VectorLayer) (es : List (String × String)),
      (copy_fields (fun _ => false) l es).1 = l)
    ∧ (∀ (l : VectorLayer) (es : List (String × String)),
      (copy_fields (fun _ => false) l es).2 =
        (es.filter (fun e => l.fieldNameIndex e.1 != -1)).length) := by
  have aux : ∀ (es : List (String × String)) (l : VectorLayer) (k : ℕ),
      es.foldl (copyFieldsStep (fun _ => false)) (l, k) =
        (l, k + (es.filter (fun e => l.fieldNameIndex e.1 != -1)).length) := by
    intro es
    induction es with
    | nil => intro l k; simp
    | cons e es ih =>
        intro l k
        rw [List.foldl_cons, List.filter_cons]
        by_cases h : l.fieldNameIndex e.1 = -1
        · have hstep : copyFieldsStep (fun _ => false) (l, k) e = (l, k) := by
            simp [copyFieldsStep, h]
          rw [hstep, ih l k]
          simp [h]
        · have hstep : copyFieldsStep (fun _ => false) (l, k) e = (l, k + 1) := by
            simp [copyFieldsStep, h]
          rw [hstep, ih l (k + 1)]
          have hb : (e.1 |> l.fieldNameIndex) != -1 := by
            simpa using h
          simp only [hb, if_true]
          simp [List.length_cons]
          omega
  constructor
  · intro l es
    rw [show copy_fields (fun _ => false) l es =
        es.foldl (copyFieldsStep (fun _ => false)) (l, 0) from rfl, aux]
  · intro l es
    rw [show copy_fields (fun _ => false) l es =
        es.foldl (copyFieldsStep (fun _ => false)) (l, 0) from rfl, aux]
    simp

/-- `fieldNameIndex` is `-1` exactly when no field carries the name. -/
lemma fieldNameIndex_neg_iff (l : VectorLayer) (n : String) :
    l.fieldNameIndex n = -1 ↔ ∀ f ∈ l.fields, f.name ≠ n := by
  unfold VectorLayer.fieldNameIndex
  cases h : l.fields.findIdx? (fun f => f.name = n) with
  | none =>
      rw [List.findIdx?_eq_none_iff] at h
      simpa using h
  | some i =>
      rw [List.findIdx?_eq_some_iff_findIdx_eq] at h
      obtain ⟨hlt, hfi⟩ := h
      subst hfi
      have hget := @List.findIdx_getElem _ (fun f => f.name = n) l.fields hlt
      refine iff_of_false ?_ ?_
      · show ¬ ((List.findIdx (fun f => decide (f.name = n)) l.fields : ℤ) = -1)
        omega
      · exact fun hall => hall _ (List.getElem_mem hlt) (by simpa using hget)

/-- A non-`-1` `fieldNameIndex` is the position of a field carrying the
name. -/
lemma fieldNameIndex_spec (l : VectorLayer) (n : String)
    (h : l.fieldNameIndex n ≠ -1) :
    ∃ (k : ℕ) (hk : k < l.fields.length),
      l.fieldNameIndex n = (k : ℤ) ∧ (l.fields[k]).name = n := by
  unfold VectorLayer.fieldNameIndex at h ⊢
  cases hf : l.fields.findIdx? (fun f => f.name = n) with
  | none => rw [hf] at h; simp at h
  | some i =>
      rw [List.findIdx?_eq_some_iff_findIdx_eq] at hf
      obtain ⟨hlt, hfi⟩ := hf
      subst hfi
      have hget := @List.findIdx_getElem _ (fun f => f.name = n) l.fields hlt
      exact ⟨_, hlt, rfl, by simpa using hget⟩

/-- Under unique field names, the position of a field determines its
`fieldNameIndex`. -/
lemma fieldNameIndex_of_get (l : VectorLayer) (n : String) (k : ℕ)
    (hk : k < l.fields.length) (hname : (l.fields[k]).name = n)
    (hnodup : (l.fields.map QgsField.name).Nodup) :
    l.fieldNameIndex n = (k : ℤ) := by
  unfold VectorLayer.fieldNameIndex
  have hfi : List.findIdx (fun f => f.name = n) l.fields = k := by
    rw [List.findIdx_eq hk]
    refine ⟨by simpa using hname, ?_⟩
    intro j hj
    simp only [decide_eq_false_iff_not]
    intro hj2
    have hjlen : j < l.fields.length := lt_trans hj hk
    have hjlen' : j < (l.fields.map QgsField.name).length := by simpa using hjlen
    have hklen' : k < (l.fields.map QgsField.name).length := by simpa using hk
    have hmapj : (l.fields.map QgsField.name)[j] = n := by
      rw [List.getElem_map]; exact hj2
    have hmapk : (l.fields.map QgsField.name)[k] = n := by
      rw [List.getElem_map]; exact hname
    have heq : (l.fields.map QgsField.name)[j] =
        (l.fields.map QgsField.name)[k] := by rw [hmapj, hmapk]
    have := (@List.Nodup.getElem_inj_iff _ _ hnodup j hjlen' k hklen').mp heq
    omega
  rw [List.findIdx?_eq_some_iff_findIdx_eq.mpr ⟨hk, hfi⟩]

/-- Membership in the `index_to_remove` list of `remove_fields`. -/
lemma mem_indexesToRemove_iff (l : VectorLayer) (names : List String) (x : ℤ) :
    x ∈ indexesToRemove l names ↔
      ∃ n ∈ names, l.fieldNameIndex n = x ∧ x ≠ -1 := by
  have aux : ∀ (ns : List String) (acc : List ℤ),
      x ∈ ns.foldl
        (fun acc field =>
          let index := l.fieldNameIndex field
          if index ≠ -1 then acc ++ [index] else acc) acc ↔
      x ∈ acc ∨ ∃ n ∈ ns, l.fieldNameIndex n = x ∧ x ≠ -1 := by
    intro ns
    induction ns with
    | nil => intro acc; simp
    | cons m ms ih =>
        intro acc
        rw [List.foldl_cons]
        by_cases h : l.fieldNameIndex m = -1
        · simp only [h]
          rw [if_neg (by simp)]
          rw [ih acc]
          constructor
          · rintro (ha | ⟨n, hn, hx⟩)
            · exact Or.inl ha
            · exact Or.inr ⟨n, List.mem_cons_of_mem m hn, hx⟩
          · rintro (ha | ⟨n, hn, hx, hne⟩)
            · exact Or.inl ha
            · rcases List.mem_cons.mp hn with rfl | hn2
              · exact absurd (h ▸ hx) (Ne.symm hne)
              · exact Or.inr ⟨n, hn2, hx, hne⟩
        · simp only
          rw [if_pos (by simpa using h)]
          rw [ih (acc ++ [l.fieldNameIndex m])]
          rw [List.mem_append, List.mem_singleton]
          constructor
          · rintro ((ha | rfl) | ⟨n, hn, hx⟩)
            · exact Or.inl ha
            · exact Or.inr ⟨m, List.mem_cons_self m ms, rfl, h⟩
            · exact Or.inr ⟨n, List.mem_cons_of_mem m hn, hx⟩
          · rintro (ha | ⟨n, hn, hx, hne⟩)
            · exact Or.inl (Or.inl ha)
            · rcases List.mem_cons.mp hn with rfl | hn2
              · exact Or.inl (Or.inr hx.symm)
              · exact Or.inr ⟨n, hn2, hx, hne⟩
  rw [show indexesToRemove l names =
      names.foldl
        (fun acc field =>
          let index := l.fieldNameIndex field
          if index ≠ -1 then acc ++ [index] else acc) [] from rfl,
    aux names []]
  simp

/-- Positional worker lemma: deleting the listed positions is filtering
by a predicate that agrees with listedness at every position. -/
lemma removeColumnsGo_eq_filter {α : Type} (idxs : List ℤ) (p : α → Bool) :
    ∀ (xs : List α) (n : ℤ),
      (∀ (k : ℕ) (hk : k < xs.length), idxs.contains (n + (k : ℤ)) = p (xs[k])) →
      removeColumnsGo idxs n xs = xs.filter (fun x => !(p x)) := by
  intro xs
  induction xs with
  | nil => intro n _; rfl
  | cons x rest ih =>
      intro n h
      have h0 : idxs.contains n = p x := by
        have := h 0 (by simp)
        simpa using this
      have hrest : ∀ (k : ℕ) (hk : k < rest.length),
          idxs.contains ((n + 1) + (k : ℤ)) = p (rest[k]) := by
        intro k hk
        have := h (k + 1) (by simpa using Nat.succ_lt_succ hk)
        push_cast at this ⊢
        rw [show n + 1 + (k : ℤ) = n + ((k : ℤ) + 1) by ring]
        simpa using this
      rw [removeColumnsGo, List.filter_cons, h0]
      cases hp : p x with
      | true => simp [ih (n + 1) hrest]
      | false => simp [ih (n + 1) hrest]

/-- Batch deletion as a filter, when listedness of a position agrees
pointwise with a predicate on the entry there. -/
lemma removeColumns_eq_filter {α : Type} (xs : List α) (idxs : List ℤ)
    (p : α → Bool)
    (h : ∀ (k : ℕ) (hk : k < xs.length), idxs.contains (k : ℤ) = p (xs[k])) :
    removeColumns xs idxs = xs.filter (fun x => !(p x)) := by
  rw [removeColumns]
  refine removeColumnsGo_eq_filter idxs p xs 0 ?_
  intro k hk
  simpa using h k hk

/-- Deleting no positions is the identity. -/
lemma removeColumns_nil {α : Type} (xs : List α) :
    removeColumns xs [] = xs := by
  rw [removeColumns_eq_filter xs [] (fun _ => false) (by intro k hk; rfl)]
  simp

/-- `List.contains` through decidable membership. -/
lemma contains_eq_decide_mem {α : Type} [BEq α] [LawfulBEq α]
    (xs : List α) (a : α) : xs.contains a = decide (a ∈ xs) :=
  List.elem_eq_mem a xs

/-- C7: `remove_fields` ignores absent names (a call whose names all fail
to resolve leaves the layer unchanged), and under the unique-field-name
invariant it deletes exactly the fields whose name is listed, in one
batch over pre-deletion positions, so a second call with the same
now-absent names is a no-op. -/
theorem remove_fields_idempotent :
    ∀ (l : VectorLayer) (names : List String),
      ((∀ n ∈ names, l.fieldNameIndex n = -1) → remove_fields l names = l)
      ∧ ((l.fields.map QgsField.name).Nodup →
          (remove_fields l names).fields =
            l.fields.filter (fun f => !(names.contains f.name)) ∧
          remove_fields (remove_fields l names) names =
            remove_fields l names) := by
  have habsent : ∀ (l : VectorLayer) (names : List String),
      (∀ n ∈ names, l.fieldNameIndex n = -1) → remove_fields l names = l := by
    intro l names h
    have hidx : indexesToRemove l names = [] := by
      rw [List.eq_nil_iff_forall_not_mem]
      intro x hx
      rw [mem_indexesToRemove_iff] at hx
      obtain ⟨n, hn, hfi, hne⟩ := hx
      exact hne (by rw [← hfi]; exact h n hn)
    simp only [remove_fields, hidx, removeColumns_nil]
    have hmap : (fun (f : Feature) =>
        ({ f with attributes := f.attributes } : Feature)) = id := rfl
    rw [hmap, List.map_id]
  intro l names
  refine ⟨habsent l names, ?_⟩
  intro hnodup
  have hfields : (remove_fields l names).fields =
      l.fields.filter (fun f => !(names.contains f.name)) := by
    show removeColumns l.fields (indexesToRemove l names) = _
    refine removeColumns_eq_filter _ _ _ ?_
    intro k hk
    have hiff : ((k : ℤ) ∈ indexesToRemove l names) ↔
        ((l.fields[k]).name ∈ names) := by
      constructor
      · intro hmem
        rw [mem_indexesToRemove_iff] at hmem
        obtain ⟨n, hn, hfi, hne⟩ := hmem
        obtain ⟨k', hk', hfi', hname'⟩ := fieldNameIndex_spec l n
          (by rw [hfi]; exact hne)
        have hkk : k' = k := by
          have : (k' : ℤ) = (k : ℤ) := by rw [← hfi', hfi]
          exact_mod_cast this
        subst hkk
        exact hname'.symm ▸ hn
      · intro hmem
        rw [mem_indexesToRemove_iff]
        exact ⟨(l.fields[k]).name, hmem,
          fieldNameIndex_of_get l _ k hk rfl hnodup, by omega⟩
    simp only [contains_eq_decide_mem]
    simp [hiff]
  have habs2 : ∀ n ∈ names, (remove_fields l names).fieldNameIndex n = -1 := by
    intro n hn
    rw [fieldNameIndex_neg_iff]
    intro f hf heq
    rw [hfields] at hf
    have hfil := (List.mem_filter.mp hf).2
    simp only [contains_eq_decide_mem] at hfil
    have : f.name ∉ names := by simpa using hfil
    exact this (heq ▸ hn)
  exact ⟨hfields, habsent _ names habs2⟩

/-- Witness for C7 on the concrete two-field layer: after removing
{A, Z} both names are absent, the second call is a no-op, and exactly the
listed fields were deleted. -/
theorem remove_fields_idempotent_witness :
    ((["A", "Z"].map (fun n => (remove_fields layerAC ["A", "Z"]).fieldNameIndex n)).all
        (fun i => i == -1) = true) ∧
    remove_fields (remove_fields layerAC ["A", "Z"]) ["A", "Z"] =
      remove_fields layerAC ["A", "Z"] ∧
    (remove_fields layerAC ["A", "Z"]).fields =
      layerAC.fields.filter (fun f => !((["A", "Z"] : List String).contains f.name)) :=
  ⟨by decide,
    ((remove_fields_idempotent layerAC ["A", "Z"]).2 (by decide)).2,
    ((remove_fields_idempotent layerAC ["A", "Z"]).2 (by decide)).1⟩

/-- `findIdx?` over a list ending in the first satisfying element finds
exactly the appended position. -/
lemma findIdx?_append_singleton {α : Type} (p : α → Bool) (xs : List α) (y : α)
    (hxs : ∀ x ∈ xs, p x = false) (hy : p y = true) :
    ∀ i : ℕ, List.findIdx? p (xs ++ [y]) i = some (xs.length + i) := by
  induction xs with
  | nil => intro i; simp [List.findIdx?_cons, hy]
  | cons x rest ih =>
      intro i
      rw [List.cons_append, List.findIdx?_cons]
      rw [if_neg (by simp [hxs x (List.mem_cons_self x rest)])]
      rw [ih (fun z hz => hxs z (List.mem_cons_of_mem x hz)) (i + 1)]
      congr 1
      simp
      omega

/-- One matched iteration of `copy_fields`: the schema gains the cloned
field under the new name at the end, and every feature row gains one
slot holding the value the old field had at copy time. -/
lemma copyOneField_spec (l : VectorLayer) (k : ℕ) (new : String)
    (hk : k < l.fields.length)
    (hfresh : ∀ f ∈ l.fields, f.name ≠ new)
    (hwf : ∀ f ∈ l.features, f.attributes.length = l.fields.length) :
    (copyOneField l k new).fields =
        l.fields ++ [{ l.fields[k] with name := new }] ∧
    (copyOneField l k new).features =
        l.features.map (fun f =>
          { f with attributes :=
              f.attributes ++ [f.attributes.getD k Attr.null] }) := by
  have hsf : l.fields.getD k ⟨"", 0, 0, 0⟩ = l.fields[k] :=
    List.getD_eq_getElem l.fields _ hk
  simp only [copyOneField]
  rw [hsf]
  have hnewidx :
      (VectorLayer.fieldNameIndex
        { l with
            fields := l.fields ++ [{ l.fields[k] with name := new }],
            features := l.features.map
              (fun f => { f with attributes := f.attributes ++ [Attr.null] }) }
        new) = (l.fields.length : ℤ) := by
    unfold VectorLayer.fieldNameIndex
    have hfi := findIdx?_append_singleton (fun f => f.name = new) l.fields
      { l.fields[k] with name := new }
      (by intro x hx; simpa using hfresh x hx) (by simp) 0
    simp only [Nat.add_zero] at hfi
    rw [hfi]
  rw [hnewidx]
  refine ⟨rfl, ?_⟩
  rw [List.map_map]
  refine List.map_congr_left ?_
  intro f hf
  have hlen : f.attributes.length = l.fields.length := hwf f hf
  simp only [Function.comp]
  rw [if_pos (by positivity)]
  have hton : ((l.fields.length : ℤ)).toNat = l.fields.length := by omega
  rw [hton]
  have hset : (f.attributes ++ [Attr.null]).set l.fields.length
      ((f.attributes ++ [Attr.null]).getD k Attr.null) =
      f.attributes ++ [(f.attributes ++ [Attr.null]).getD k Attr.null] := by
    rw [List.set_append, if_neg (by omega)]
    rw [hlen]
    simp
  rw [hset]
  rw [List.getD_append _ _ _ _ (by omega)]

/-- C6: for a rename entry whose old name resolves to position k of a
well-formed layer (attribute rows as long as the schema, new name not yet
taken), `copy_fields` appends a field with the old field's type, length
and precision under the new name, and every feature's value in the new
field equals the value the old field had at copy time; an entry whose old
name does not resolve is skipped silently, leaving the layer untouched
and opening no session. -/
theorem copy_fields_roundtrip :
    (∀ (commitOk : ℕ → Bool) (l : VectorLayer) (old new : String) (k : ℕ)
        (hk : k < l.fields.length),
      commitOk 0 = true →
      l.fieldNameIndex old = (k : ℤ) →
      (∀ f ∈ l.fields, f.name ≠ new) →
      (∀ f ∈ l.features, f.attributes.length = l.fields.length) →
      (copy_fields commitOk l [(old, new)]).1.fields =
          l.fields ++ [{ l.fields[k] with name := new }] ∧
      (copy_fields commitOk l [(old, new)]).1.features =
          l.features.map (fun f =>
            { f with attributes :=
                f.attributes ++ [f.attributes.getD k Attr.null] }))
    ∧ (∀ (commitOk : ℕ → Bool) (l : VectorLayer) (old new : String),
      l.fieldNameIndex old = -1 →
      copy_fields commitOk l [(old, new)] = (l, 0)) := by
  constructor
  · intro commitOk l old new k hk hcommit hidx hfresh hwf
    have hstep : copy_fields commitOk l [(old, new)] =
        copyFieldsStep commitOk (l, 0) (old, new) := rfl
    rw [hstep]
    simp only [copyFieldsStep]
    rw [if_pos (by rw [hidx]; omega)]
    rw [hcommit, if_pos rfl]
    rw [hidx]
    have hton : ((k : ℤ)).toNat = k := by omega
    rw [hton]
    exact copyOneField_spec l k new hk hfresh hwf
  · intro commitOk l old new hidx
    have hstep : copy_fields commitOk l [(old, new)] =
        copyFieldsStep commitOk (l, 0) (old, new) := rfl
    rw [hstep]
    simp only [copyFieldsStep]
    rw [hidx]
    simp

/-- Witness for C6 on the concrete layer: copying A to B appends a field
B with A's type/length/precision and duplicates A's value; a rename of
the absent Z is a silent no-op. -/
theorem copy_fields_roundtrip_witness :
    (copy_fields (fun _ => true) layerAC [("A", "B")]).1.fields =
        layerAC.fields ++ [⟨"B", 2, 10, 0⟩] ∧
    (copy_fields (fun _ => true) layerAC [("A", "B")]).1.features =
        [⟨1, none, [Attr.int 7, Attr.str "x", Attr.int 7]⟩] ∧
    copy_fields (fun _ => true) layerAC [("Z", "Y")] = (layerAC, 0) := by
  have h := copy_fields_roundtrip.1 (fun _ => true) layerAC "A" "B" 0
    (by decide) rfl (by decide) (by decide) (by decide)
  exact ⟨h.1, by rw [h.2]; rfl, copy_fields_roundtrip.2 (fun _ => true) layerAC
    "Z" "Y" (by decide)⟩

end InaSafe
